import Mathlib

/-!
Verification of the diskusage terminal application (main.go).

The development shallowly embeds the two components of the program:

* the scanner (getDirSize, scanDirectory, Items.Less and the sort.Sort
  calls), modelled over an inductive filesystem tree that also represents
  the two I/O failure modes visible to filepath.Walk (an entry whose
  lstat fails, and a directory whose readDirNames fails);
* the interactive session (the model struct, model.Update and model.View),
  modelled as a pure step function on a Model record driven by a stream of
  key and window-size messages.  The os.Remove calls of the confirm-delete
  handler are abstracted by a boolean oracle on paths, and the paths that
  the handler actually removed are returned as an explicit effect list.

Filesystem paths are represented as lists of path segments; joining a
directory path with an entry name is list append and filepath.Base is the
last segment.  Styling, lipgloss rendering and humanize formatting carry
no state and are omitted; model.View is modelled up to the structure the
claims mention (error short-circuit, empty view, visible slice, banner).
-/

namespace DiskUsage

/-! ## Filesystem trees

A node of the scanned tree.  Besides plain files and readable directories
the model has the two error shapes filepath.Walk can encounter below a
path: an entry whose lstat fails (walkFn receives a nil FileInfo and an
error) and a directory whose readDirNames fails (walkFn receives the
error together with the directory's FileInfo). -/
inductive FS where
  | file (name : String) (size : Nat)
  | dir (name : String) (entries : List FS)
  | errDir (name : String)
  | errEntry (name : String)

/-- The base name of a node, i.e. filepath.Base of its path. -/
def fsName : FS → String
  | .file n _ => n
  | .dir n _ => n
  | .errDir n => n
  | .errEntry n => n

/-- Whether lstat reports the node as a directory. -/
def isDirNode : FS → Bool
  | .dir _ _ => true
  | .errDir _ => true
  | _ => false

/-- strings.HasPrefix(filepath.Base(path), ".") of the Go source: a name is
hidden exactly when its first character is a dot. -/
def hiddenName (s : String) : Bool :=
  match s.data with
  | [] => false
  | c :: _ => c == '.'

mutual
/-- getDirSize of the Go source.  Its filepath.Walk callback propagates
every error, so the walk aborts (and the size is discarded by the caller)
exactly when the subtree contains any failing node; otherwise it returns
the sum of the sizes of every non-directory node of the subtree.  There is
no filter on hidden names here: the callback only tests info.IsDir(). -/
def subtreeSize : FS → Option Nat
  | .file _ s => some s
  | .errDir _ => none
  | .errEntry _ => none
  | .dir _ es => subtreeSizeList es
def subtreeSizeList : List FS → Option Nat
  | [] => some 0
  | e :: rest =>
    match subtreeSize e, subtreeSizeList rest with
    | some a, some b => some (a + b)
    | _, _ => none
end

/-- The Item struct of the Go source.  Path is kept as its list of
segments. -/
structure Item where
  path : List String
  size : Nat
  isSelected : Bool
deriving Repr, DecidableEq

/-- The value the scanDirectory walk callback hands back to filepath.Walk
for one call: nil, filepath.SkipDir, or a real error. -/
inductive FnRes where
  | ok
  | skipDir
  | fail (msg : String)
deriving Repr, DecidableEq

mutual
/-- The body of scanDirectory's filepath.Walk call: visiting one entry
(whose path is pfx ++ [name of the node]) returns the files and folders
appended while walking it plus the value the walk of this entry returns
to its caller.

* an entry whose lstat fails: the callback is invoked with the error,
  takes its first branch and returns nil — nothing is recorded;
* a directory whose readDirNames fails: the callback is invoked with the
  error and returns nil; filepath.Walk's inner walk then returns that
  nil without descending — nothing is recorded;
* a file: the callback returns nil after skipping it (hidden name) or
  appending it to files;
* a readable directory: a hidden name makes the callback return
  filepath.SkipDir so the subtree is not descended; otherwise the
  directory is appended to folders unless getDirSize failed (then it is
  silently omitted), and the children are walked in order, a child
  returning filepath.SkipDir being skipped when it is a directory. -/
def visit (pfx : List String) : FS → List Item × List Item × FnRes
  | .errEntry _ => ([], [], .ok)
  | .errDir _ => ([], [], .ok)
  | .file n s =>
    if hiddenName n then ([], [], .ok)
    else ([⟨pfx ++ [n], s, false⟩], [], .ok)
  | .dir n es =>
    if hiddenName n then ([], [], .skipDir)
    else
      let p := pfx ++ [n]
      let self : List Item :=
        match subtreeSize (.dir n es) with
        | some sz => [⟨p, sz, false⟩]
        | none => []
      let r := runChildren p es
      (r.1, self ++ r.2.1, r.2.2)
def runChildren (p : List String) : List FS → List Item × List Item × FnRes
  | [] => ([], [], .ok)
  | e :: rest =>
    let r1 := visit p e
    match r1.2.2 with
    | .ok =>
      let r2 := runChildren p rest
      (r1.1 ++ r2.1, r1.2.1 ++ r2.2.1, r2.2.2)
    | .skipDir =>
      if isDirNode e then
        let r2 := runChildren p rest
        (r1.1 ++ r2.1, r1.2.1 ++ r2.2.1, r2.2.2)
      else (r1.1, r1.2.1, .skipDir)
    | .fail m => (r1.1, r1.2.1, .fail m)
end

/-- The Less method of Items: item j sorts before item k when its Size is
strictly larger.  Insertion with this comparison yields the
descending-by-size order sort.Sort establishes. -/
def insertBySize (x : Item) : List Item → List Item
  | [] => [x]
  | y :: ys => if y.size < x.size then x :: y :: ys else y :: insertBySize x ys

/-- The sort.Sort(files) and sort.Sort(folders) calls of scanDirectory,
modelled as insertion sort with the Items.Less comparison. -/
def sortDesc (l : List Item) : List Item := l.foldr insertBySize []

/-- scanDirectory of the Go source: walk the root (filepath.Walk first
lstats the root itself; on failure it hands the error to the callback,
which swallows it), sort both accumulated lists descending by size and
return them together with the error filepath.Walk produced (SkipDir is
translated back to nil by filepath.Walk). -/
def scanDirectory (t : FS) : List Item × List Item × Option String :=
  let r := visit [] t
  (sortDesc r.1, sortDesc r.2.1,
    match r.2.2 with
    | .fail m => some m
    | _ => none)

/-- Whether the initial root itself cannot be resolved: its lstat fails
before the walk proper begins. -/
def rootUnresolvable : FS → Bool
  | .errEntry _ => true
  | _ => false

/-! ## The interactive session

The model struct of the Go source.  The lipgloss styles carry no state
and the stored WindowSizeMsg is only read through its Height field, so
both are omitted; err keeps the path whose os.Remove failed. -/

/-- The session state (the model struct). -/
structure Model where
  files : List Item
  folders : List Item
  cursor : Int
  viewMode : String
  confirming : Bool
  err : Option (List String)
  offset : Int
  height : Int
deriving Repr, DecidableEq

/-- The two kinds of bubbletea messages model.Update handles: a key press
(identified by its msg.String() value) and a window-size message. -/
inductive Msg where
  | key (s : String)
  | resize (width : Int) (height : Int)
deriving Repr, DecidableEq

/-- The length of a Go slice as an int. -/
def intLen (l : List Item) : Int := (l.length : Int)

/-- The collection the current view operates on: m.files unless viewMode
is the string folders. -/
def activeItems (m : Model) : List Item :=
  if m.viewMode = "folders" then m.folders else m.files

/-- The viewMode switch of the tab handler: the map literal sends files to
folders and folders to files, and yields the empty string (the zero value
of a missing map key) on anything else. -/
def tabSwitch (v : String) : String :=
  if v = "files" then "folders" else if v = "folders" then "files" else ""

/-- Flipping IsSelected of the item at a (Go int) index.  A negative index
would panic in Go; that reachability question is settled separately via
toggleOOB, so out of range indices leave the list unchanged here. -/
def toggleAt (l : List Item) (i : Int) : List Item :=
  if h : 0 ≤ i ∧ i.toNat < l.length then
    l.set i.toNat
      { l.get ⟨i.toNat, h.2⟩ with isSelected := !(l.get ⟨i.toNat, h.2⟩).isSelected }
  else l

/-- The index expression of the space handler is evaluated after the guard
len(items) > 0 && m.cursor < len(items); the backing array access is out
of bounds exactly when the guard passes with a negative cursor. -/
def toggleOOB (m : Model) : Prop :=
  0 < (activeItems m).length ∧ m.cursor < intLen (activeItems m) ∧ m.cursor < 0

/-- The body of the confirm-delete handler: iterate over the items in
order; for a selected item attempt os.Remove (the oracle ok says which
paths succeed) — on failure record the error and break out, on success
clear the selected flag in place.  Returns the updated list, the recorded
error and the paths removed from the filesystem, in order. -/
def deleteLoop (ok : List String → Bool) :
    List Item → List Item × Option (List String) × List (List String)
  | [] => ([], none, [])
  | item :: rest =>
    if item.isSelected then
      if ok item.path then
        let r := deleteLoop ok rest
        ({ item with isSelected := false } :: r.1, r.2.1, item.path :: r.2.2)
      else (item :: rest, some item.path, [])
    else
      let r := deleteLoop ok rest
      (item :: r.1, r.2.1, r.2.2)

/-- model.Update of the Go source as a pure transition: given the oracle
for os.Remove it maps a state and a message to the next state together
with the list of paths the handler removed from the filesystem (empty for
every message but a confirmed delete).  The quit keys return the state
unchanged (tea.Quit only ends the event loop). -/
def update (ok : List String → Bool) (m : Model) : Msg → Model × List (List String)
  | .resize _ h => ({ m with height := h }, [])
  | .key s =>
    if s = "ctrl+c" ∨ s = "q" then (m, [])
    else if s = "up" ∨ s = "k" then
      (if m.cursor > 0 then
        let c := m.cursor - 1
        { m with cursor := c, offset := if c < m.offset then c else m.offset }
      else m, [])
    else if s = "down" ∨ s = "j" then
      let items := activeItems m
      (if m.cursor < intLen items - 1 then
        let c := m.cursor + 1
        { m with cursor := c,
                 offset :=
                   if c ≥ m.offset + m.height - 4 then c - m.height + 5 else m.offset }
      else m, [])
    else if s = "pageup" then
      let o1 := m.offset - (m.height - 4)
      let c1 := m.cursor - (m.height - 4)
      ({ m with offset := if o1 < 0 then 0 else o1,
                cursor := if c1 < 0 then 0 else c1 }, [])
    else if s = "pagedown" then
      let items := activeItems m
      let o1 := m.offset + (m.height - 4)
      let maxOffset := intLen items - (m.height - 4)
      let o2 := if o1 > maxOffset then maxOffset else o1
      let c1 := m.cursor + (m.height - 4)
      ({ m with offset := if o2 < 0 then 0 else o2,
                cursor := if c1 ≥ intLen items then intLen items - 1 else c1 }, [])
    else if s = "home" then ({ m with cursor := 0, offset := 0 }, [])
    else if s = "end" then
      let items := activeItems m
      let o1 := intLen items - (m.height - 4)
      ({ m with cursor := intLen items - 1,
                offset := if o1 < 0 then 0 else o1 }, [])
    else if s = "tab" then
      ({ m with viewMode := tabSwitch m.viewMode, cursor := 0, offset := 0 }, [])
    else if s = " " then
      let items := activeItems m
      (if 0 < items.length ∧ m.cursor < intLen items then
        if m.viewMode = "files" then { m with files := toggleAt m.files m.cursor }
        else { m with folders := toggleAt m.folders m.cursor }
      else m, [])
    else if s = "d" then ({ m with confirming := true }, [])
    else if s = "y" then
      if m.confirming then
        if m.viewMode = "folders" then
          let r := deleteLoop ok m.folders
          ({ m with folders := r.1,
                    err := if r.2.1.isSome then r.2.1 else m.err,
                    confirming := false }, r.2.2)
        else
          let r := deleteLoop ok m.files
          ({ m with files := r.1,
                    err := if r.2.1.isSome then r.2.1 else m.err,
                    confirming := false }, r.2.2)
      else (m, [])
    else if s = "n" then
      (if m.confirming then { m with confirming := false } else m, [])
    else (m, [])

/-- The state component of one update. -/
def step (ok : List String → Bool) (m : Model) (msg : Msg) : Model :=
  (update ok m msg).1

/-- Folding a whole message stream through the session. -/
def run (ok : List String → Bool) (m : Model) (msgs : List Msg) : Model :=
  msgs.foldl (step ok) m

/-- initialModel of the Go source, parameterised by the two collections
the scanner produced: files view, cursor and offset at zero, default
height 10. -/
def initialModel (fs fd : List Item) : Model :=
  { files := fs, folders := fd, cursor := 0, viewMode := "files",
    confirming := false, err := none, offset := 0, height := 10 }

/-- The shape of one rendered frame, keeping exactly the structure the
claims talk about: the error-only frame model.View short-circuits to, the
empty-view frame, and a normal frame with its visible slice, the cursor
row relative to the slice and the confirmation banner. -/
inductive Frame where
  | errorOnly (p : List String)
  | emptyView (viewName : String)
  | normal (visible : List Item) (cursorRow : Int) (confirmBanner : Bool)
deriving Repr, DecidableEq

/-- model.View of the Go source: error short-circuit first; the empty
early return; otherwise clamp a local copy of the offset (the receiver is
a value, so the clamp is not persisted) and render the visible slice. -/
def view (m : Model) : Frame :=
  match m.err with
  | some p => .errorOnly p
  | none =>
    let items := activeItems m
    if items.length = 0 then .emptyView m.viewMode
    else
      let vh0 := m.height - 4
      let vh := if vh0 < 1 then 1 else vh0
      let o1 := if m.offset < 0 then 0 else m.offset
      let mo0 := intLen items - vh
      let mo := if mo0 < 0 then 0 else mo0
      let o2 := if o1 > mo then mo else o1
      let endIdx := if o2 + vh > intLen items then intLen items else o2 + vh
      .normal ((items.drop o2.toNat).take (endIdx - o2).toNat) (m.cursor - o2)
        m.confirming

/-! ## Predicates, comparison definitions and concrete scenario states -/

/-- Non-increasing by size, the order sort.Sort(Items) establishes. -/
def sizeSortedDesc (l : List Item) : Prop :=
  l.Pairwise (fun a b => b.size ≤ a.size)

mutual
/-- The size the spec asserts for a folder, written from the spec words:
the sum of byte lengths of its non-excluded, non-directory descendants,
where an entry whose base name starts with a dot is excluded together
with its whole subtree.  This is the comparison definition for the
folder-size claim; the code-side quantity is subtreeSize. -/
def specDescSize : FS → Nat
  | .file n s => if hiddenName n then 0 else s
  | .dir n es => if hiddenName n then 0 else specDescSizeList es
  | .errDir _ => 0
  | .errEntry _ => 0
def specDescSizeList : List FS → Nat
  | [] => 0
  | e :: rest => specDescSize e + specDescSizeList rest
end

mutual
/-- The folder items one walk of the tree is expected to append, written
as a direct recursion: one item per non-hidden directory reached, whose
size is the getDirSize result over ALL non-directory descendants
(subtreeSizeList, with no hidden-name filter), the directory being
omitted when that size walk hits an error. -/
def foldersOf (pfx : List String) : FS → List Item
  | .file _ _ => []
  | .errDir _ => []
  | .errEntry _ => []
  | .dir n es =>
    if hiddenName n then []
    else
      (match subtreeSizeList es with
       | some sz => [⟨pfx ++ [n], sz, false⟩]
       | none => []) ++ foldersOfList (pfx ++ [n]) es
def foldersOfList (p : List String) : List FS → List Item
  | [] => []
  | e :: rest => foldersOf p e ++ foldersOfList p rest
end

/-- The scenario tree of the claims: a root with exactly the three files
a (10 bytes), b (30 bytes), c (20 bytes). -/
def exThreeFiles : FS := .dir "r" [.file "a" 10, .file "b" 30, .file "c" 20]

/-- The scenario tree of the folder-size claim: the root holds d with a
100-byte file, and d also holds a hidden directory .git with a 500-byte
file. -/
def exHiddenBytes : FS :=
  .dir "r" [.dir "d" [.file "f" 100, .dir ".git" [.file "g" 500]]]

/-- The removal oracle under which every os.Remove call succeeds. -/
def okAll : List String → Bool := fun _ => true

/-- The removal oracle that fails exactly on the path r/b. -/
def okExceptB : List String → Bool := fun p => !(p == ["r", "b"])

/-- The session after selecting r/a, requesting and confirming deletion,
with every removal succeeding. -/
def c1state : Model :=
  run okAll (initialModel [⟨["r", "a"], 10, true⟩] []) [.key "d", .key "y"]

/-- A session state already carrying a deletion error. -/
def c10state : Model :=
  { files := [⟨["r", "a"], 1, true⟩], folders := [], cursor := 0,
    viewMode := "files", confirming := false, err := some ["r", "b"],
    offset := 0, height := 10 }

/-- Whether a message keeps the viewport height at least n (key presses
do not change the height and always qualify). -/
def resizeAtLeast (n : Int) : Msg → Bool
  | .resize _ h => decide (n ≤ h)
  | .key _ => true

/-- The invariant the navigation handlers maintain while every seen
viewport height is at least 5: the cursor indexes the active collection
and the scroll offset stays between 0 and the cursor whenever the
collection is non-empty, and on an empty active collection the offset is
0 while the cursor is 0 or the sentinel -1 that end and pagedown leave
behind there. -/
def NavInv (m : Model) : Prop :=
  5 ≤ m.height ∧
  (0 < (activeItems m).length →
    0 ≤ m.cursor ∧ m.cursor < intLen (activeItems m) ∧
    0 ≤ m.offset ∧ m.offset ≤ m.cursor) ∧
  ((activeItems m).length = 0 → m.offset = 0 ∧ (m.cursor = 0 ∨ m.cursor = -1))

/-- The invariant that protects the space handler while every seen
viewport height is at least 4: a negative cursor only ever occurs on an
empty active collection. -/
def SelInv (m : Model) : Prop :=
  4 ≤ m.height ∧ (m.cursor < 0 → (activeItems m).length = 0)

/-- The session reached from two small files after shrinking the viewport
to height 4 and pressing move-down once. -/
def c4state : Model :=
  run okAll (initialModel [⟨["r", "a"], 1, false⟩, ⟨["r", "b"], 2, false⟩] [])
    [.resize 80 4, .key "down"]

/-- The session reached from one file after shrinking the viewport to
height 3 and pressing page-down once: the cursor lands on -1 while the
active collection still has one element. -/
def c8state : Model :=
  run okAll (initialModel [⟨["r", "a"], 10, false⟩] [])
    [.resize 80 3, .key "pagedown"]

/-! ## Sortedness of the scan output -/

lemma mem_insertBySize {x y : Item} {l : List Item}
    (h : y ∈ insertBySize x l) : y = x ∨ y ∈ l := by
  induction l with
  | nil => simpa [insertBySize] using h
  | cons z zs ih =>
    by_cases hc : z.size < x.size
    · simp only [insertBySize, if_pos hc, List.mem_cons] at h
      rcases h with h | h | h
      · exact Or.inl h
      · exact Or.inr (by simp [h])
      · exact Or.inr (List.mem_cons_of_mem z h)
    · simp only [insertBySize, if_neg hc, List.mem_cons] at h
      rcases h with h | h
      · exact Or.inr (h ▸ List.mem_cons_self z zs)
      · rcases ih h with h | h
        · exact Or.inl h
        · exact Or.inr (List.mem_cons_of_mem z h)

lemma sorted_insertBySize {x : Item} {l : List Item} (h : sizeSortedDesc l) :
    sizeSortedDesc (insertBySize x l) := by
  induction l with
  | nil => simp [insertBySize, sizeSortedDesc]
  | cons z zs ih =>
    rcases List.pairwise_cons.mp h with ⟨hz, hzs⟩
    by_cases hc : z.size < x.size
    · simp only [insertBySize, if_pos hc]
      refine List.pairwise_cons.mpr ⟨?_, h⟩
      intro y hy
      rcases List.mem_cons.mp hy with hy | hy
      · exact hy ▸ Nat.le_of_lt hc
      · exact Nat.le_trans (hz y hy) (Nat.le_of_lt hc)
    · simp only [insertBySize, if_neg hc]
      refine List.pairwise_cons.mpr ⟨?_, ih hzs⟩
      intro y hy
      rcases mem_insertBySize hy with hy | hy
      · exact hy ▸ Nat.le_of_not_lt hc
      · exact hz y hy

lemma sorted_sortDesc (l : List Item) : sizeSortedDesc (sortDesc l) := by
  induction l with
  | nil => simp [sortDesc, sizeSortedDesc]
  | cons x xs ih => exact sorted_insertBySize ih

/-- C6: for every scanned tree both collections come back sorted
non-increasing by size, and on a root holding only the files a (10),
b (30), c (20) the files collection is exactly b, c, a while the folders
collection holds only the root itself (no proper subdirectory). -/
theorem scan_output_sorted (t : FS) :
    sizeSortedDesc (scanDirectory t).1 ∧ sizeSortedDesc (scanDirectory t).2.1 ∧
    (scanDirectory exThreeFiles).1 =
      [⟨["r", "b"], 30, false⟩, ⟨["r", "c"], 20, false⟩, ⟨["r", "a"], 10, false⟩] ∧
    (scanDirectory exThreeFiles).2.1 = [⟨["r"], 60, false⟩] :=
  ⟨sorted_sortDesc _, sorted_sortDesc _, by decide, by decide⟩

/-! ## The walk never propagates an error -/

mutual
lemma visit_res (pfx : List String) (t : FS) :
    (visit pfx t).2.2 = FnRes.ok ∨
      ((visit pfx t).2.2 = FnRes.skipDir ∧ isDirNode t = true) := by
  cases t with
  | errEntry n => exact Or.inl rfl
  | errDir n => exact Or.inl rfl
  | file n s =>
    by_cases h : hiddenName n = true
    · simp [visit, h]
    · simp [visit, h]
  | dir n es =>
    by_cases h : hiddenName n = true
    · simp [visit, h, isDirNode]
    · simp only [visit, h, Bool.false_eq_true, if_false]
      exact Or.inl (runChildren_res (pfx ++ [n]) es)
lemma runChildren_res (p : List String) (es : List FS) :
    (runChildren p es).2.2 = FnRes.ok := by
  cases es with
  | nil => rfl
  | cons e rest =>
    rcases visit_res p e with h | ⟨h, hd⟩
    · simp only [runChildren, h]
      exact runChildren_res p rest
    · simp only [runChildren, h, hd, if_true]
      exact runChildren_res p rest
end

/-- C3 counterexample: a root whose lstat fails is the very situation the
claim says must surface as an IOError, yet scanDirectory returns a nil
error there (the walk callback swallows the root error as well). -/
theorem scan_root_error_swallowed :
    rootUnresolvable (FS.errEntry "root") = true ∧
    (scanDirectory (FS.errEntry "root")).2.2 = none :=
  ⟨rfl, rfl⟩

/-- C3 amended: scanDirectory never fails — every error met during the
walk, including a root that cannot be opened or resolved at all, is
swallowed and the walk continues; an unresolvable root just produces two
empty collections. -/
theorem scan_never_fails (t : FS) :
    (scanDirectory t).2.2 = none ∧
    (rootUnresolvable t = true →
      (scanDirectory t).1 = [] ∧ (scanDirectory t).2.1 = []) := by
  constructor
  · rcases visit_res [] t with h | ⟨h, _⟩ <;> simp [scanDirectory, h]
  · intro hr
    cases t with
    | errEntry n => exact ⟨rfl, rfl⟩
    | errDir n => simp [rootUnresolvable] at hr
    | file n s => simp [rootUnresolvable] at hr
    | dir n es => simp [rootUnresolvable] at hr

theorem scan_never_fails_witness :
    (scanDirectory (FS.errEntry "boot")).2.2 = none ∧
    (scanDirectory (FS.errEntry "boot")).1 = [] ∧
    (scanDirectory (FS.errEntry "boot")).2.1 = [] :=
  ⟨(scan_never_fails (FS.errEntry "boot")).1,
   (scan_never_fails (FS.errEntry "boot")).2 rfl⟩

/-- C9: when the root path's own base name starts with a dot, the scan
succeeds with empty collections — the callback returns filepath.SkipDir
for the root itself (or nil when the root is not a directory), so the
whole tree including the root is skipped and filepath.Walk turns SkipDir
into a nil error. -/
theorem scan_hidden_root (t : FS) (h : hiddenName (fsName t) = true) :
    scanDirectory t = ([], [], none) := by
  cases t with
  | errEntry n => rfl
  | errDir n => rfl
  | file n s =>
    simp only [fsName] at h
    simp [scanDirectory, visit, h, sortDesc]
  | dir n es =>
    simp only [fsName] at h
    simp [scanDirectory, visit, h, sortDesc]

theorem scan_hidden_root_witness :
    scanDirectory (FS.dir ".x" [FS.file "a" 5]) = ([], [], none) :=
  scan_hidden_root (FS.dir ".x" [FS.file "a" 5]) (by decide)

/-! ## No hidden entry, nor anything below one, is reported -/

lemma mem_sortDesc {y : Item} {l : List Item} (h : y ∈ sortDesc l) : y ∈ l := by
  induction l with
  | nil => simp [sortDesc] at h
  | cons x xs ih =>
    simp only [sortDesc, List.foldr_cons] at h
    rcases mem_insertBySize h with h | h
    · simp [h]
    · exact List.mem_cons_of_mem x (ih (by simpa [sortDesc] using h))

mutual
lemma visit_clean (pfx : List String) (t : FS)
    (hp : ∀ s ∈ pfx, hiddenName s = false) :
    (∀ i ∈ (visit pfx t).1, ∀ s ∈ i.path, hiddenName s = false) ∧
    (∀ i ∈ (visit pfx t).2.1, ∀ s ∈ i.path, hiddenName s = false) := by
  cases t with
  | errEntry n => exact ⟨by simp [visit], by simp [visit]⟩
  | errDir n => exact ⟨by simp [visit], by simp [visit]⟩
  | file n s =>
    by_cases h : hiddenName n = true
    · simp [visit, h]
    · refine ⟨?_, by simp [visit, h]⟩
      intro i hi s hs
      simp only [visit, h, Bool.false_eq_true, if_false, List.mem_singleton] at hi
      subst hi
      rcases List.mem_append.mp hs with hs | hs
      · exact hp s hs
      · rcases List.mem_singleton.mp hs with rfl
        simpa using h
  | dir n es =>
    by_cases h : hiddenName n = true
    · simp [visit, h]
    · have hp2 : ∀ s ∈ pfx ++ [n], hiddenName s = false := by
        intro s hs
        rcases List.mem_append.mp hs with hs | hs
        · exact hp s hs
        · rcases List.mem_singleton.mp hs with rfl
          simpa using h
      have hrec := runChildren_clean (pfx ++ [n]) es hp2
      constructor
      · intro i hi
        simp only [visit, h, Bool.false_eq_true, if_false] at hi
        exact hrec.1 i hi
      · intro i hi
        simp only [visit, h, Bool.false_eq_true, if_false] at hi
        rcases List.mem_append.mp hi with hi | hi
        · rcases hs : subtreeSize (.dir n es) with _ | sz <;> rw [hs] at hi
          · simp at hi
          · rcases List.mem_singleton.mp (by simpa using hi) with rfl
            intro s hs2
            exact hp2 s hs2
        · exact hrec.2 i hi
lemma runChildren_clean (p : List String) (es : List FS)
    (hp : ∀ s ∈ p, hiddenName s = false) :
    (∀ i ∈ (runChildren p es).1, ∀ s ∈ i.path, hiddenName s = false) ∧
    (∀ i ∈ (runChildren p es).2.1, ∀ s ∈ i.path, hiddenName s = false) := by
  cases es with
  | nil => exact ⟨by simp [runChildren], by simp [runChildren]⟩
  | cons e rest =>
    have h1 := visit_clean p e hp
    have h2 := runChildren_clean p rest hp
    rcases visit_res p e with h | ⟨h, hd⟩
    · constructor
      · intro i hi
        simp only [runChildren, h] at hi
        rcases List.mem_append.mp hi with hi | hi
        · exact h1.1 i hi
        · exact h2.1 i hi
      · intro i hi
        simp only [runChildren, h] at hi
        rcases List.mem_append.mp hi with hi | hi
        · exact h1.2 i hi
        · exact h2.2 i hi
    · constructor
      · intro i hi
        simp only [runChildren, h, hd, if_true] at hi
        rcases List.mem_append.mp hi with hi | hi
        · exact h1.1 i hi
        · exact h2.1 i hi
      · intro i hi
        simp only [runChildren, h, hd, if_true] at hi
        rcases List.mem_append.mp hi with hi | hi
        · exact h1.2 i hi
        · exact h2.2 i hi
end

/-- C7: no item of either returned collection has a path with any hidden
segment — in particular no entry whose base name (the last segment)
starts with a dot is reported, and nothing below a hidden directory is
either, since the walk never descends into one. -/
theorem scan_no_hidden (t : FS) :
    (∀ i ∈ (scanDirectory t).1, ∀ s ∈ i.path, hiddenName s = false) ∧
    (∀ i ∈ (scanDirectory t).2.1, ∀ s ∈ i.path, hiddenName s = false) := by
  have h := visit_clean [] t (by simp)
  constructor
  · intro i hi
    exact h.1 i (mem_sortDesc hi)
  · intro i hi
    exact h.2 i (mem_sortDesc hi)

/-! ## Folder sizes -/

mutual
lemma visit_folders (pfx : List String) (t : FS) :
    (visit pfx t).2.1 = foldersOf pfx t := by
  cases t with
  | errEntry n => rfl
  | errDir n => rfl
  | file n s =>
    by_cases h : hiddenName n = true
    · simp [visit, foldersOf, h]
    · simp [visit, foldersOf, h]
  | dir n es =>
    by_cases h : hiddenName n = true
    · simp [visit, foldersOf, h]
    · simp only [visit, foldersOf, h, Bool.false_eq_true, if_false, subtreeSize]
      rw [runChildren_folders (pfx ++ [n]) es]
lemma runChildren_folders (p : List String) (es : List FS) :
    (runChildren p es).2.1 = foldersOfList p es := by
  cases es with
  | nil => rfl
  | cons e rest =>
    rcases visit_res p e with h | ⟨h, hd⟩
    · simp only [runChildren, h, foldersOfList]
      rw [visit_folders p e, runChildren_folders p rest]
    · simp only [runChildren, h, hd, if_true, foldersOfList]
      rw [visit_folders p e, runChildren_folders p rest]
end

/-- C2 counterexample: on the claim's own scenario the folder item for d
carries size 600 — getDirSize has no hidden-name filter, so the 500
bytes inside d/.git are counted — while the sum over non-excluded
non-directory descendants prescribed by the claim is 100; no folder item
of the scan carries 100 at all (the root itself is also reported, again
with 600). -/
theorem folder_size_counterexample :
    (⟨["r", "d"], 600, false⟩ : Item) ∈ (scanDirectory exHiddenBytes).2.1 ∧
    specDescSizeList [FS.file "f" 100, FS.dir ".git" [FS.file "g" 500]] = 100 ∧
    (∀ i ∈ (scanDirectory exHiddenBytes).2.1, i.size ≠ 100) ∧
    (scanDirectory exHiddenBytes).2.1 ≠ [⟨["r", "d"], 100, false⟩] := by
  refine ⟨by decide, by decide, by decide, by decide⟩

/-- C2 amended: the folders collection is exactly the descending sort of
one item per non-excluded directory the walk reaches, each item's size
being the sum of byte lengths of ALL its non-directory descendants —
including files inside hidden subdirectories — with a directory omitted
entirely when its size walk hits an error. -/
theorem scan_folder_sizes (t : FS) :
    (scanDirectory t).2.1 = sortDesc (foldersOf [] t) := by
  simp only [scanDirectory]
  rw [visit_folders [] t]

/-! ## The confirm-delete batch -/

lemma clearSel_eq_self {i : Item} (h : i.isSelected = false) :
    { i with isSelected := false } = i := by
  cases i
  simp_all

lemma update_confirm_files (ok : List String → Bool) (m : Model)
    (hc : m.confirming = true) (hvm : ¬ m.viewMode = "folders") :
    update ok m (.key "y") =
      ({ m with files := (deleteLoop ok m.files).1,
                err := if (deleteLoop ok m.files).2.1.isSome
                       then (deleteLoop ok m.files).2.1 else m.err,
                confirming := false }, (deleteLoop ok m.files).2.2) := by
  simp [update, hc, hvm]

lemma update_confirm_folders (ok : List String → Bool) (m : Model)
    (hc : m.confirming = true) (hvm : m.viewMode = "folders") :
    update ok m (.key "y") =
      ({ m with folders := (deleteLoop ok m.folders).1,
                err := if (deleteLoop ok m.folders).2.1.isSome
                       then (deleteLoop ok m.folders).2.1 else m.err,
                confirming := false }, (deleteLoop ok m.folders).2.2) := by
  simp [update, hc, hvm]

lemma deleteLoop_allOk (ok : List String → Bool) (l : List Item)
    (hall : ∀ i ∈ l, i.isSelected = true → ok i.path = true) :
    deleteLoop ok l =
      (l.map (fun i => { i with isSelected := false }), none,
       (l.filter (fun i => i.isSelected)).map (fun i => i.path)) := by
  induction l with
  | nil => rfl
  | cons item rest ih =>
    have hrest : ∀ i ∈ rest, i.isSelected = true → ok i.path = true :=
      fun i hi => hall i (List.mem_cons_of_mem item hi)
    by_cases hs : item.isSelected = true
    · have hok := hall item (List.mem_cons_self item rest) hs
      simp [deleteLoop, hs, hok, ih hrest]
    · have hs2 : item.isSelected = false := by simpa using hs
      simp [deleteLoop, hs2, ih hrest, clearSel_eq_self hs2]

lemma deleteLoop_first_fail (ok : List String → Bool) (pre post : List Item)
    (x : Item)
    (hpre : ∀ i ∈ pre, i.isSelected = true → ok i.path = true)
    (hx : x.isSelected = true) (hfail : ok x.path = false) :
    deleteLoop ok (pre ++ x :: post) =
      (pre.map (fun i => { i with isSelected := false }) ++ x :: post,
       some x.path,
       (pre.filter (fun i => i.isSelected)).map (fun i => i.path)) := by
  induction pre with
  | nil => simp [deleteLoop, hx, hfail]
  | cons i pre ih =>
    have hipre : ∀ j ∈ pre, j.isSelected = true → ok j.path = true :=
      fun j hj => hpre j (List.mem_cons_of_mem i hj)
    have hrec := ih hipre
    by_cases hs : i.isSelected = true
    · have hok := hpre i (List.mem_cons_self i pre) hs
      simp [deleteLoop, hs, hok, hrec]
    · have hs2 : i.isSelected = false := by simpa using hs
      simp [deleteLoop, hs2, hrec, clearSel_eq_self hs2]

/-- C1 counterexample: a confirm-delete in which the only selected item is
successfully removed from the filesystem leaves that item STILL PRESENT
in the active collection — the handler only clears the selected flag in
place and never deletes entries from the session's list. -/
theorem confirm_delete_keeps_items :
    (⟨["r", "a"], 10, false⟩ : Item) ∈ c1state.files ∧
    c1state.files.length = 1 ∧ c1state.files ≠ [] := by
  refine ⟨by decide, by decide, by decide⟩

/-- C1 amended: when every selected item of the active collection
(whichever of the two views is active) is successfully removable,
confirm-delete removes exactly the selected items' paths from the
filesystem and resets every selected flag — so the selection set becomes
empty — but the items themselves all remain in the active collection
(only their flags change); the inactive collection and the recorded
error are untouched and confirming is reset. -/
theorem confirm_delete_all_ok (ok : List String → Bool) (m : Model)
    (hc : m.confirming = true)
    (hall : ∀ i ∈ activeItems m, i.isSelected = true → ok i.path = true) :
    update ok m (.key "y") =
      ((if m.viewMode = "folders" then
          { m with
            folders := m.folders.map (fun i => { i with isSelected := false }),
            confirming := false }
        else
          { m with
            files := m.files.map (fun i => { i with isSelected := false }),
            confirming := false }),
       ((activeItems m).filter (fun i => i.isSelected)).map
         (fun i => i.path)) := by
  by_cases hv : m.viewMode = "folders"
  · have hall2 : ∀ i ∈ m.folders, i.isSelected = true → ok i.path = true := by
      simpa [activeItems, hv] using hall
    rw [update_confirm_folders ok m hc hv,
      deleteLoop_allOk ok m.folders hall2]
    simp [activeItems, hv]
  · have hall2 : ∀ i ∈ m.files, i.isSelected = true → ok i.path = true := by
      simpa [activeItems, hv] using hall
    rw [update_confirm_files ok m hc hv, deleteLoop_allOk ok m.files hall2]
    simp [activeItems, hv]

theorem confirm_delete_all_ok_witness :
    update okAll
        { files := [⟨["r", "x"], 7, false⟩],
          folders := [⟨["r", "a"], 10, true⟩, ⟨["r", "b"], 2, false⟩],
          cursor := 0, viewMode := "folders", confirming := true,
          err := none, offset := 0, height := 10 } (.key "y") =
      ({ files := [⟨["r", "x"], 7, false⟩],
         folders := [⟨["r", "a"], 10, false⟩, ⟨["r", "b"], 2, false⟩],
         cursor := 0, viewMode := "folders", confirming := false,
         err := none, offset := 0, height := 10 }, [["r", "a"]]) := by
  rw [confirm_delete_all_ok okAll _ rfl (by decide)]
  decide

/-- C5: processed in active-collection order (whichever of the two views
is active), a batch whose first failing selected item is x leaves every
earlier selected item removed from the filesystem with its flag cleared,
records x's failure as the session error, stops — x and everything after
it are untouched, selected flags included, and the inactive collection is
untouched too — and resets confirming. -/
theorem confirm_delete_stops_at_failure (ok : List String → Bool) (m : Model)
    (pre post : List Item) (x : Item)
    (hc : m.confirming = true)
    (hact : activeItems m = pre ++ x :: post)
    (hpre : ∀ i ∈ pre, i.isSelected = true → ok i.path = true)
    (hx : x.isSelected = true) (hfail : ok x.path = false) :
    update ok m (.key "y") =
      ((if m.viewMode = "folders" then
          { m with
            folders := pre.map (fun i => { i with isSelected := false })
              ++ x :: post,
            err := some x.path, confirming := false }
        else
          { m with
            files := pre.map (fun i => { i with isSelected := false })
              ++ x :: post,
            err := some x.path, confirming := false }),
       (pre.filter (fun i => i.isSelected)).map (fun i => i.path)) := by
  by_cases hv : m.viewMode = "folders"
  · have hfl : m.folders = pre ++ x :: post := by
      simpa [activeItems, hv] using hact
    rw [update_confirm_folders ok m hc hv, hfl,
      deleteLoop_first_fail ok pre post x hpre hx hfail]
    simp [hv]
  · have hfl : m.files = pre ++ x :: post := by
      simpa [activeItems, hv] using hact
    rw [update_confirm_files ok m hc hv, hfl,
      deleteLoop_first_fail ok pre post x hpre hx hfail]
    simp [hv]

theorem confirm_delete_stops_at_failure_witness :
    update okExceptB
        { files := [⟨["r", "a"], 1, true⟩, ⟨["r", "b"], 2, true⟩,
                    ⟨["r", "c"], 3, true⟩],
          folders := [], cursor := 0, viewMode := "files", confirming := true,
          err := none, offset := 0, height := 10 } (.key "y") =
      ({ files := [⟨["r", "a"], 1, false⟩, ⟨["r", "b"], 2, true⟩,
                   ⟨["r", "c"], 3, true⟩],
         folders := [], cursor := 0, viewMode := "files", confirming := false,
         err := some ["r", "b"], offset := 0, height := 10 }, [["r", "a"]]) := by
  rw [confirm_delete_stops_at_failure okExceptB _ [⟨["r", "a"], 1, true⟩]
    [⟨["r", "c"], 3, true⟩] ⟨["r", "b"], 2, true⟩ rfl (by decide) (by decide)
    (by decide) (by decide)]
  decide

/-! ## The error state is permanent -/

lemma step_err_isSome (ok : List String → Bool) (m : Model) (msg : Msg)
    (h : m.err.isSome = true) : (step ok m msg).err.isSome = true := by
  cases msg with
  | resize w h2 => exact h
  | key s =>
    simp only [step, update]
    by_cases h1 : s = "ctrl+c" ∨ s = "q"
    · rw [if_pos h1]; exact h
    rw [if_neg h1]
    by_cases h2 : s = "up" ∨ s = "k"
    · rw [if_pos h2]; split <;> exact h
    rw [if_neg h2]
    by_cases h3 : s = "down" ∨ s = "j"
    · rw [if_pos h3]; split <;> exact h
    rw [if_neg h3]
    by_cases h4 : s = "pageup"
    · rw [if_pos h4]; exact h
    rw [if_neg h4]
    by_cases h5 : s = "pagedown"
    · rw [if_pos h5]; exact h
    rw [if_neg h5]
    by_cases h6 : s = "home"
    · rw [if_pos h6]; exact h
    rw [if_neg h6]
    by_cases h7 : s = "end"
    · rw [if_pos h7]; exact h
    rw [if_neg h7]
    by_cases h8 : s = "tab"
    · rw [if_pos h8]; exact h
    rw [if_neg h8]
    by_cases h9 : s = " "
    · rw [if_pos h9]; split <;> [skip; exact h]
      split <;> exact h
    rw [if_neg h9]
    by_cases h10 : s = "d"
    · rw [if_pos h10]; exact h
    rw [if_neg h10]
    by_cases h11 : s = "y"
    · rw [if_pos h11]
      split
      · split
        · show (if (deleteLoop ok m.folders).2.1.isSome then _ else m.err).isSome
            = true
          split
          · assumption
          · exact h
        · show (if (deleteLoop ok m.files).2.1.isSome then _ else m.err).isSome
            = true
          split
          · assumption
          · exact h
      · exact h
    rw [if_neg h11]
    by_cases h12 : s = "n"
    · rw [if_pos h12]; split <;> exact h
    rw [if_neg h12]
    exact h

lemma run_err_isSome (ok : List String → Bool) (m : Model) (msgs : List Msg)
    (h : m.err.isSome = true) : (run ok m msgs).err.isSome = true := by
  induction msgs generalizing m with
  | nil => exact h
  | cons msg rest ih => exact ih (step ok m msg) (step_err_isSome ok m msg h)

/-- C10: once a failed deletion has set the session error, no later input
or window-size message ever clears it, and every frame rendered from any
later state is the error-only frame; yet the handlers still run on the
underlying state — request-delete still raises the confirmation flag and
a further confirm-delete still executes the removal loop on the current
collection. -/
theorem error_state_persists (ok : List String → Bool) (m : Model)
    (msgs : List Msg) (h : m.err.isSome = true) :
    (run ok m msgs).err.isSome = true ∧
    (∃ p, view (run ok m msgs) = Frame.errorOnly p) ∧
    (step ok m (.key "d")).confirming = true ∧
    (m.viewMode = "files" →
      (step ok (step ok m (.key "d")) (.key "y")).files =
        (deleteLoop ok m.files).1) := by
  refine ⟨run_err_isSome ok m msgs h, ?_, ?_, ?_⟩
  · rcases he : (run ok m msgs).err with _ | p
    · exact absurd (run_err_isSome ok m msgs h) (by simp [he])
    · exact ⟨p, by simp [view, he]⟩
  · simp [step, update]
  · intro hvm
    have hd : step ok m (.key "d") = { m with confirming := true } := by
      simp [step, update]
    rw [hd]
    have := update_confirm_files ok { m with confirming := true } rfl
      (by simp [hvm])
    simp only [step, this]

theorem error_state_persists_witness :
    (run okAll c10state [.key "n", .key "home"]).err.isSome = true ∧
    (step okAll (step okAll c10state (.key "d")) (.key "y")).files =
      (deleteLoop okAll c10state.files).1 :=
  ⟨(error_state_persists okAll c10state [.key "n", .key "home"] rfl).1,
   (error_state_persists okAll c10state [.key "n", .key "home"] rfl).2.2.2 rfl⟩

/-! ## Cursor and scroll invariants -/

lemma toggleAt_length (l : List Item) (i : Int) :
    (toggleAt l i).length = l.length := by
  unfold toggleAt
  split <;> simp

lemma deleteLoop_length (ok : List String → Bool) (l : List Item) :
    (deleteLoop ok l).1.length = l.length := by
  induction l with
  | nil => rfl
  | cons item rest ih =>
    by_cases hs : item.isSelected = true
    · by_cases hok : ok item.path = true
      · simp [deleteLoop, hs, hok, ih]
      · simp [deleteLoop, hs, hok]
    · simp [deleteLoop, hs, ih]

lemma navInv_mk (m : Model) (c o : Int) (h5 : 5 ≤ m.height)
    (h1 : 0 < (activeItems m).length →
      0 ≤ c ∧ c < intLen (activeItems m) ∧ 0 ≤ o ∧ o ≤ c)
    (h2 : (activeItems m).length = 0 → o = 0 ∧ (c = 0 ∨ c = -1)) :
    NavInv { m with cursor := c, offset := o } :=
  ⟨h5, h1, h2⟩

lemma navInv_of_eq (m m2 : Model) (hm : NavInv m)
    (hc : m2.cursor = m.cursor) (ho : m2.offset = m.offset)
    (hht : m2.height = m.height)
    (hl : (activeItems m2).length = (activeItems m).length) :
    NavInv m2 := by
  obtain ⟨h5, h1, h2⟩ := hm
  refine ⟨by rw [hht]; exact h5, ?_, ?_⟩
  · intro hpos
    rw [hl] at hpos
    rw [hc, ho]
    simp only [intLen, hl]
    exact h1 hpos
  · intro h0
    rw [hl] at h0
    rw [hc, ho]
    exact h2 h0

lemma navInv_step (ok : List String → Bool) (m : Model) (msg : Msg)
    (hm : NavInv m) (hres : resizeAtLeast 5 msg = true) :
    NavInv (step ok m msg) := by
  obtain ⟨hh, hne, hemp⟩ := hm
  cases msg with
  | resize w h2 =>
    simp only [resizeAtLeast, decide_eq_true_eq] at hres
    exact ⟨hres, hne, hemp⟩
  | key s =>
    simp only [step, update]
    by_cases h1 : s = "ctrl+c" ∨ s = "q"
    · rw [if_pos h1]; exact ⟨hh, hne, hemp⟩
    rw [if_neg h1]
    by_cases h2 : s = "up" ∨ s = "k"
    · rw [if_pos h2]
      by_cases hc : m.cursor > 0
      · rw [if_pos hc]
        refine navInv_mk m _ _ hh ?_ ?_
        · intro hl
          have h9 := hne hl
          simp only [intLen] at h9 ⊢
          split_ifs <;> omega
        · intro hl
          have h9 := hemp hl
          split_ifs <;> omega
      · rw [if_neg hc]; exact ⟨hh, hne, hemp⟩
    rw [if_neg h2]
    by_cases h3 : s = "down" ∨ s = "j"
    · rw [if_pos h3]
      by_cases hc : m.cursor < intLen (activeItems m) - 1
      · rw [if_pos hc]
        refine navInv_mk m _ _ hh ?_ ?_
        · intro hl
          have h9 := hne hl
          simp only [intLen] at h9 hc ⊢
          split_ifs <;> omega
        · intro hl
          have h9 := hemp hl
          simp only [intLen] at hc
          split_ifs <;> omega
      · rw [if_neg hc]; exact ⟨hh, hne, hemp⟩
    rw [if_neg h3]
    by_cases h4 : s = "pageup"
    · rw [if_pos h4]
      refine navInv_mk m _ _ hh ?_ ?_
      · intro hl
        have h9 := hne hl
        simp only [intLen] at h9 ⊢
        split_ifs <;> omega
      · intro hl
        have h9 := hemp hl
        split_ifs <;> omega
    rw [if_neg h4]
    by_cases h5 : s = "pagedown"
    · rw [if_pos h5]
      refine navInv_mk m _ _ hh ?_ ?_
      · intro hl
        have h9 := hne hl
        simp only [intLen] at h9 ⊢
        split_ifs <;> omega
      · intro hl
        have h9 := hemp hl
        simp only [intLen]
        split_ifs <;> omega
    rw [if_neg h5]
    by_cases h6 : s = "home"
    · rw [if_pos h6]
      refine navInv_mk m _ _ hh ?_ ?_
      · intro hl
        simp only [intLen]
        omega
      · intro hl
        omega
    rw [if_neg h6]
    by_cases h7 : s = "end"
    · rw [if_pos h7]
      refine navInv_mk m _ _ hh ?_ ?_
      · intro hl
        simp only [intLen]
        split_ifs <;> omega
      · intro hl
        simp only [intLen]
        split_ifs <;> omega
    rw [if_neg h7]
    by_cases h8 : s = "tab"
    · rw [if_pos h8]
      refine ⟨hh, ?_, ?_⟩
      · intro hl
        refine ⟨le_refl 0, ?_, le_refl 0, le_refl 0⟩
        simp only [intLen]
        exact_mod_cast hl
      · intro _
        exact ⟨rfl, Or.inl rfl⟩
    rw [if_neg h8]
    by_cases h9 : s = " "
    · rw [if_pos h9]
      split
      · split
        next hv =>
          refine navInv_of_eq m _ ⟨hh, hne, hemp⟩ rfl rfl rfl ?_
          simp [activeItems, hv, toggleAt_length]
        next hv =>
          refine navInv_of_eq m _ ⟨hh, hne, hemp⟩ rfl rfl rfl ?_
          by_cases hv2 : m.viewMode = "folders" <;>
            simp [activeItems, hv2, toggleAt_length]
      · exact ⟨hh, hne, hemp⟩
    rw [if_neg h9]
    by_cases h10 : s = "d"
    · rw [if_pos h10]
      exact navInv_of_eq m _ ⟨hh, hne, hemp⟩ rfl rfl rfl rfl
    rw [if_neg h10]
    by_cases h11 : s = "y"
    · rw [if_pos h11]
      split
      · split
        next hv =>
          refine navInv_of_eq m _ ⟨hh, hne, hemp⟩ rfl rfl rfl ?_
          simp [activeItems, hv, deleteLoop_length]
        next hv =>
          refine navInv_of_eq m _ ⟨hh, hne, hemp⟩ rfl rfl rfl ?_
          simp [activeItems, hv, deleteLoop_length]
      · exact ⟨hh, hne, hemp⟩
    rw [if_neg h11]
    by_cases h12 : s = "n"
    · rw [if_pos h12]
      split
      · exact navInv_of_eq m _ ⟨hh, hne, hemp⟩ rfl rfl rfl rfl
      · exact ⟨hh, hne, hemp⟩
    rw [if_neg h12]
    exact ⟨hh, hne, hemp⟩

lemma navInv_run (ok : List String → Bool) (m : Model) (evs : List Msg)
    (hm : NavInv m) (hres : ∀ msg ∈ evs, resizeAtLeast 5 msg = true) :
    NavInv (run ok m evs) := by
  induction evs generalizing m with
  | nil => exact hm
  | cons msg rest ih =>
    exact ih (step ok m msg)
      (navInv_step ok m msg hm (hres msg (List.mem_cons_self msg rest)))
      (fun e he => hres e (List.mem_cons_of_mem msg he))

lemma navInv_initial (fs fd : List Item) : NavInv (initialModel fs fd) := by
  refine ⟨(by decide : (5:Int) ≤ 10), ?_, ?_⟩
  · intro hl
    have hc : (initialModel fs fd).cursor = 0 := rfl
    have ho : (initialModel fs fd).offset = 0 := rfl
    simp only [intLen]
    omega
  · intro _
    exact ⟨rfl, Or.inl rfl⟩

/-- C4 counterexample: with viewport height 4 (visibleRows clamps to 1 in
the claim's terms, but the handlers use height-4 = 0 unclamped) a single
move-down from the initial state yields cursor 1 and scrollOffset 2 on a
two-element collection, violating scrollOffset ≤ cursor and a fortiori
cursor ≤ scrollOffset + visibleRows - 1. -/
theorem cursor_invariant_counterexample :
    0 < (activeItems c4state).length ∧ c4state.cursor = 1 ∧
    c4state.offset = 2 ∧ ¬(c4state.offset ≤ c4state.cursor) := by
  refine ⟨by decide, by decide, by decide, by decide⟩

/-- C4 amended: after any sequence of input and viewport-resize events in
which every resize height is at least 5, whenever the active collection
is non-empty the session satisfies 0 ≤ cursor < len(activeCollection) and
0 ≤ scrollOffset ≤ cursor.  (The remaining window bound
cursor ≤ scrollOffset + visibleRows - 1 of the original claim fails as
soon as a resize shrinks visibleRows below cursor - scrollOffset + 1, and
is only re-established lazily by the render-time clamp.) -/
theorem cursor_invariant (ok : List String → Bool) (fs fd : List Item)
    (evs : List Msg) (hres : ∀ msg ∈ evs, resizeAtLeast 5 msg = true)
    (hne : 0 < (activeItems (run ok (initialModel fs fd) evs)).length) :
    0 ≤ (run ok (initialModel fs fd) evs).cursor ∧
    (run ok (initialModel fs fd) evs).cursor <
      intLen (activeItems (run ok (initialModel fs fd) evs)) ∧
    0 ≤ (run ok (initialModel fs fd) evs).offset ∧
    (run ok (initialModel fs fd) evs).offset ≤
      (run ok (initialModel fs fd) evs).cursor :=
  (navInv_run ok (initialModel fs fd) evs (navInv_initial fs fd) hres).2.1 hne

theorem cursor_invariant_witness :
    0 ≤ (run okAll (initialModel [⟨["r", "a"], 1, false⟩] [])
        [.resize 80 6, .key "down", .key "end"]).cursor ∧
    (run okAll (initialModel [⟨["r", "a"], 1, false⟩] [])
        [.resize 80 6, .key "down", .key "end"]).cursor <
      intLen (activeItems (run okAll (initialModel [⟨["r", "a"], 1, false⟩] [])
        [.resize 80 6, .key "down", .key "end"])) ∧
    0 ≤ (run okAll (initialModel [⟨["r", "a"], 1, false⟩] [])
        [.resize 80 6, .key "down", .key "end"]).offset ∧
    (run okAll (initialModel [⟨["r", "a"], 1, false⟩] [])
        [.resize 80 6, .key "down", .key "end"]).offset ≤
      (run okAll (initialModel [⟨["r", "a"], 1, false⟩] [])
        [.resize 80 6, .key "down", .key "end"]).cursor :=
  cursor_invariant okAll [⟨["r", "a"], 1, false⟩] []
    [.resize 80 6, .key "down", .key "end"] (by decide) (by decide)

/-! ## Reachability of the toggle-select out-of-bounds access -/

lemma selInv_mk (m : Model) (c o : Int) (h4 : 4 ≤ m.height)
    (h : c < 0 → (activeItems m).length = 0) :
    SelInv { m with cursor := c, offset := o } :=
  ⟨h4, h⟩

lemma selInv_of_eq (m m2 : Model) (hm : SelInv m)
    (hc : m2.cursor = m.cursor) (hht : m2.height = m.height)
    (hl : (activeItems m2).length = (activeItems m).length) :
    SelInv m2 := by
  obtain ⟨h4, himp⟩ := hm
  refine ⟨by rw [hht]; exact h4, ?_⟩
  intro hneg
  rw [hc] at hneg
  rw [hl]
  exact himp hneg

lemma selInv_step (ok : List String → Bool) (m : Model) (msg : Msg)
    (hm : SelInv m) (hres : resizeAtLeast 4 msg = true) :
    SelInv (step ok m msg) := by
  obtain ⟨h4, himp⟩ := hm
  cases msg with
  | resize w h2 =>
    simp only [resizeAtLeast, decide_eq_true_eq] at hres
    exact ⟨hres, himp⟩
  | key s =>
    simp only [step, update]
    by_cases h1 : s = "ctrl+c" ∨ s = "q"
    · rw [if_pos h1]; exact ⟨h4, himp⟩
    rw [if_neg h1]
    by_cases h2 : s = "up" ∨ s = "k"
    · rw [if_pos h2]
      by_cases hc : m.cursor > 0
      · rw [if_pos hc]
        refine selInv_mk m _ _ h4 ?_
        intro hneg
        omega
      · rw [if_neg hc]; exact ⟨h4, himp⟩
    rw [if_neg h2]
    by_cases h3 : s = "down" ∨ s = "j"
    · rw [if_pos h3]
      by_cases hc : m.cursor < intLen (activeItems m) - 1
      · rw [if_pos hc]
        refine selInv_mk m _ _ h4 ?_
        intro hneg
        exact himp (by omega)
      · rw [if_neg hc]; exact ⟨h4, himp⟩
    rw [if_neg h3]
    by_cases h5 : s = "pageup"
    · rw [if_pos h5]
      refine selInv_mk m _ _ h4 ?_
      intro hneg
      split_ifs at hneg <;> omega
    rw [if_neg h5]
    by_cases h6 : s = "pagedown"
    · rw [if_pos h6]
      refine selInv_mk m _ _ h4 ?_
      intro hneg
      simp only [intLen] at hneg
      split_ifs at hneg with hcond
      · omega
      · exact himp (by omega)
    rw [if_neg h6]
    by_cases h7 : s = "home"
    · rw [if_pos h7]
      refine selInv_mk m _ _ h4 ?_
      intro hneg
      omega
    rw [if_neg h7]
    by_cases h8 : s = "end"
    · rw [if_pos h8]
      refine selInv_mk m _ _ h4 ?_
      intro hneg
      simp only [intLen] at hneg
      omega
    rw [if_neg h8]
    by_cases h9 : s = "tab"
    · rw [if_pos h9]
      refine ⟨h4, ?_⟩
      intro hneg
      simp at hneg
    rw [if_neg h9]
    by_cases h10 : s = " "
    · rw [if_pos h10]
      split
      · split
        next hv =>
          refine selInv_of_eq m _ ⟨h4, himp⟩ rfl rfl ?_
          simp [activeItems, hv, toggleAt_length]
        next hv =>
          refine selInv_of_eq m _ ⟨h4, himp⟩ rfl rfl ?_
          by_cases hv2 : m.viewMode = "folders" <;>
            simp [activeItems, hv2, toggleAt_length]
      · exact ⟨h4, himp⟩
    rw [if_neg h10]
    by_cases h11 : s = "d"
    · rw [if_pos h11]
      exact selInv_of_eq m _ ⟨h4, himp⟩ rfl rfl rfl
    rw [if_neg h11]
    by_cases h12 : s = "y"
    · rw [if_pos h12]
      split
      · split
        next hv =>
          refine selInv_of_eq m _ ⟨h4, himp⟩ rfl rfl ?_
          simp [activeItems, hv, deleteLoop_length]
        next hv =>
          refine selInv_of_eq m _ ⟨h4, himp⟩ rfl rfl ?_
          simp [activeItems, hv, deleteLoop_length]
      · exact ⟨h4, himp⟩
    rw [if_neg h12]
    by_cases h13 : s = "n"
    · rw [if_pos h13]
      split
      · exact selInv_of_eq m _ ⟨h4, himp⟩ rfl rfl rfl
      · exact ⟨h4, himp⟩
    rw [if_neg h13]
    exact ⟨h4, himp⟩

lemma selInv_run (ok : List String → Bool) (m : Model) (evs : List Msg)
    (hm : SelInv m) (hres : ∀ msg ∈ evs, resizeAtLeast 4 msg = true) :
    SelInv (run ok m evs) := by
  induction evs generalizing m with
  | nil => exact hm
  | cons msg rest ih =>
    exact ih (step ok m msg)
      (selInv_step ok m msg hm (hres msg (List.mem_cons_self msg rest)))
      (fun e he => hres e (List.mem_cons_of_mem msg he))

/-- C8 counterexample: the out-of-bounds branch of the space handler's
array access IS reachable — after a resize to height 3 (height-4 is the
negative -1, unclamped) one page-down drives the cursor to -1 on a
non-empty collection, so the guard len(items) > 0 && cursor < len(items)
passes and the access items[-1] would panic. -/
theorem toggle_oob_reachable :
    toggleOOB c8state ∧ c8state.cursor = -1 ∧
    (activeItems c8state).length = 1 := by
  refine ⟨⟨by decide, by decide, by decide⟩, by decide, by decide⟩

/-- C8 amended: in every session state reachable from the initial model
by a sequence of input and viewport-resize events whose resize heights
are all at least 4, the toggle-select index is within bounds — the
out-of-bounds branch of the embedded array access is unreachable,
including on an empty active collection (the guard rejects it). -/
theorem toggle_index_safe (ok : List String → Bool) (fs fd : List Item)
    (evs : List Msg) (hres : ∀ msg ∈ evs, resizeAtLeast 4 msg = true) :
    ¬ toggleOOB (run ok (initialModel fs fd) evs) := by
  have hinv : SelInv (run ok (initialModel fs fd) evs) := by
    refine selInv_run ok (initialModel fs fd) evs ⟨(by decide : (4:Int) ≤ 10), ?_⟩ hres
    intro hneg
    have : (initialModel fs fd).cursor = 0 := rfl
    omega
  rintro ⟨hpos, _, hneg⟩
  have := hinv.2 hneg
  omega

theorem toggle_index_safe_witness :
    ¬ toggleOOB (run okAll (initialModel [⟨["r", "a"], 10, false⟩] [])
      [.resize 80 4, .key "pagedown", .key " "]) :=
  toggle_index_safe okAll [⟨["r", "a"], 10, false⟩] []
    [.resize 80 4, .key "pagedown", .key " "] (by decide)

end DiskUsage
